import Mathlib

/-!
Verification development for the silicon-symposium terminal dialogue
program (src/silicon-symposium/app.py).

The program's core is a bounded-viewport text fitter
(`truncate_text_to_fit`) driven by an external "render and measure"
oracle (`get_rendered_height`, which renders markdown through a rich
console and counts newlines), plus a streaming turn controller that
alternates two agents and folds their streamed output into an
append-only conversation log.

The measurement oracle is an external collaborator (it renders rich
markup); here it is a parameter `measure : List Char → Nat → Nat`.
Text is modelled as `List Char` (Python strings are sequences of code
points, and `text[mid:]` is `List.drop mid text`).  `max_lines` is an
`Int` because the caller computes it as a difference of terminal
heights and it can be non-positive.  The Python `while low < high`
loop is embedded with an explicit fuel argument; the loop decreases
`high - low` on every iteration, so fuel `high - low` (at the call
site: `text.length`) is always sufficient.

The completion collaborator (litellm streaming) is modelled by a
`CompletionOutcome` value per turn: either a pre-stream connection
failure, or a list of streamed chunks (each chunk's `delta.content`,
which may be absent) followed by how the stream ended (normal
completion, a mid-stream exception, or a user interrupt while
the chunks were being consumed).  The rich `Live` display sink is
external; the strings handed to it are collected in `frames`.
-/

namespace SiliconSymposium

/-! ## The viewport fitter (app.py lines 75-120) -/

/-- The binary-search loop inside `truncate_text_to_fit` (app.py lines
109-118), fuel-indexed.  State: `low`, `high`, `best_start`, exactly as
in the source. -/
def truncate_search (measure : List Char → Nat → Nat) (text : List Char)
    (max_lines : Int) (width : Nat) : Nat → Nat → Nat → Nat → Nat
  | 0, _, _, best_start => best_start
  | fuel + 1, low, high, best_start =>
    if low < high then
      let mid := (low + high) / 2
      let height := measure (text.drop mid) width
      if (height : Int) ≤ max_lines then
        truncate_search measure text max_lines width fuel low mid mid
      else
        truncate_search measure text max_lines width fuel (mid + 1) high best_start
    else best_start

/-- `truncate_text_to_fit(text, max_lines, width)` from app.py lines
83-120: truncate text from the beginning to fit within `max_lines`
rendered lines, keeping the most recent content, via binary search over
the start offset. -/
def truncate_text_to_fit (measure : List Char → Nat → Nat) (text : List Char)
    (max_lines : Int) (width : Nat) : List Char :=
  if max_lines ≤ 0 then
    text
  else
    let rendered_height := measure text width
    if (rendered_height : Int) ≤ max_lines then
      text
    else
      let best_start := truncate_search measure text max_lines width text.length 0 text.length 0
      text.drop best_start

/-- The stand-in oracle of the spec's first scenario (§8): word wrap
disabled, `measure(text, w) = ceil(len(text) / w)`. -/
def ceil_div_oracle (t : List Char) (w : Nat) : Nat := (t.length + w - 1) / w

/-- Monotonicity assumption on the oracle for a fixed text and width:
dropping a longer prefix never increases the rendered height.  Offsets
are restricted to the text (beyond `text.length` every suffix is empty). -/
def MonotoneMeasure (measure : List Char → Nat → Nat) (text : List Char) (width : Nat) : Prop :=
  ∀ t, t ≤ text.length → ∀ s, s ≤ t →
    measure (text.drop t) width ≤ measure (text.drop s) width

instance MonotoneMeasure.decidable (measure : List Char → Nat → Nat) (text : List Char)
    (width : Nat) : Decidable (MonotoneMeasure measure text width) :=
  inferInstanceAs (Decidable (∀ t, t ≤ text.length → ∀ s, s ≤ t →
    measure (text.drop t) width ≤ measure (text.drop s) width))

/-- An oracle under which only the trailing line "xyz" renders within
one line; every other suffix measures 2.  Deterministic but not
monotone — the spec's oracle contract (§6) requires only determinism. -/
def cex_line_oracle : List Char → Nat → Nat := fun t _ => if t = "xyz".data then 1 else 2

/-- A constant oracle: every suffix (including the text itself)
measures 2 lines. -/
def flat_oracle : List Char → Nat → Nat := fun _ _ => 2

/-- A monotone oracle under which the sole character of "a" renders 2
lines while the empty suffix renders 0. -/
def one_char_oracle : List Char → Nat → Nat := fun t _ => if t.isEmpty then 0 else 2

/-! ## The streaming turn controller (app.py lines 123-417) -/

/-- One entry of a speaker's private message history
(`{"role": ..., "content": ...}` dictionaries in the source). -/
structure Message where
  role : String
  content : String
deriving DecidableEq

/-- How the chunk stream of one turn ends: normal completion, a
mid-stream exception from the completion collaborator, or a user
interrupt (KeyboardInterrupt) while the chunks were being consumed. -/
inductive TurnEnding where
  | done
  | failed (msg : String)
  | interrupted
deriving DecidableEq

/-- The behaviour of the external completion collaborator on one call:
either it fails before producing a stream (the `try` around
`completion(...)`, app.py lines 152-161), or it yields a list of chunk
contents (`chunk["choices"][0]["delta"].content`, possibly absent)
and then ends as described by `TurnEnding`. -/
inductive CompletionOutcome where
  | connectError (msg : String)
  | streamed (chunks : List (Option String)) (ending : TurnEnding)
deriving DecidableEq

/-- What propagates out of a turn: a fatal exception (re-raised at top
level) or a user interrupt (caught at top level without re-raising). -/
inductive TurnError where
  | fatal (msg : String)
  | interrupt
deriving DecidableEq

/-- The successful result of `get_agent_response`: the full response,
the updated conversation log, and the per-chunk display frames as
pairs (candidate text handed to the fitter, fitted text handed to the
display sink). -/
structure TurnSuccess where
  full_response : String
  updated_log : String
  frames : List (String × String)
deriving DecidableEq

/-- `current_display` built on each chunk (app.py line 171):
`f"{conversation_log}**{agent_name}:**\n\n{full_response}"`. -/
def build_current_display (conversation_log agent_name full_response : String) : String :=
  conversation_log ++ "**" ++ agent_name ++ ":**\n\n" ++ full_response

/-- The fitter applied to a string (the fitter itself operates on the
code-point sequence). -/
def truncate_string (measure : List Char → Nat → Nat) (s : String)
    (max_lines : Int) (width : Nat) : String :=
  String.mk (truncate_text_to_fit measure s.data max_lines width)

/-- The `for chunk in response` loop of `get_agent_response` (app.py
lines 163-185): accumulate `full_response`, and on every truthy chunk
content rebuild `current_display`, fit it, and hand it to the display
sink.  Returns the final `full_response` and the display frames. -/
def stream_chunks (agent_name conversation_log : String)
    (measure : List Char → Nat → Nat) (available_height : Int) (available_width : Nat) :
    List (Option String) → String → String × List (String × String)
  | [], full_response => (full_response, [])
  | chunk :: rest, full_response =>
    match chunk with
    | none =>
      stream_chunks agent_name conversation_log measure available_height available_width
        rest full_response
    | some content =>
      if content.isEmpty then
        stream_chunks agent_name conversation_log measure available_height available_width
          rest full_response
      else
        let full_response := full_response ++ content
        let current_display := build_current_display conversation_log agent_name full_response
        let display_text := truncate_string measure current_display available_height available_width
        let result := stream_chunks agent_name conversation_log measure available_height
          available_width rest full_response
        (result.1, (current_display, display_text) :: result.2)

/-- The final accumulated `full_response` of a chunk stream (chunks
with absent or empty content contribute nothing). -/
def response_of (chunks : List (Option String)) : String :=
  chunks.foldl
    (fun acc chunk =>
      match chunk with
      | none => acc
      | some content => if content.isEmpty then acc else acc ++ content)
    ""

/-- The successive values of `full_response` at the display points of
the stream loop (one per truthy chunk). -/
def displayed_bodies : List (Option String) → String → List String
  | [], _ => []
  | none :: rest, acc => displayed_bodies rest acc
  | some content :: rest, acc =>
    if content.isEmpty then displayed_bodies rest acc
    else (acc ++ content) :: displayed_bodies rest (acc ++ content)

/-- `get_agent_response` (app.py lines 123-190).  A pre-stream failure
is wrapped as `"Failed to get response from {agent_name}: {e}"` and
re-raised; the chunk loop streams the response while updating the
display; on completion the formatted record is appended to the log.  A
mid-stream exception or interrupt propagates out of the loop as-is
(there is no `try` around the loop). -/
def get_agent_response (agent_name : String) (messages : List Message) (model_name : String)
    (conversation_log : String) (measure : List Char → Nat → Nat)
    (available_height : Int) (available_width : Nat) (outcome : CompletionOutcome) :
    Except TurnError TurnSuccess :=
  match outcome with
  | .connectError e =>
    .error (.fatal ("Failed to get response from " ++ agent_name ++ ": " ++ e))
  | .streamed chunks ending =>
    let result := stream_chunks agent_name conversation_log measure available_height
      available_width chunks ""
    match ending with
    | .done =>
      .ok ⟨result.1,
        conversation_log ++ "**" ++ agent_name ++ ":**\n\n" ++ result.1 ++ "\n\n",
        result.2⟩
    | .failed e => .error (.fatal e)
    | .interrupted => .error .interrupt

/-- `run_conversation_turn` (app.py lines 282-325): append the prompt
as a `user` entry, stream the response, and on success append the
response as an `assistant` entry.  The message list is mutated in
place in the source, so the user entry persists even when the stream
fails; the assistant entry is appended only after a completed stream. -/
def run_conversation_turn (agent_name : String) (agent_messages : List Message)
    (model_name prompt conversation_log : String) (measure : List Char → Nat → Nat)
    (available_height : Int) (available_width : Nat) (outcome : CompletionOutcome) :
    List Message × Except TurnError (String × String) :=
  let agent_messages := agent_messages ++ [⟨"user", prompt⟩]
  match get_agent_response agent_name agent_messages model_name conversation_log measure
      available_height available_width outcome with
  | .ok out =>
    (agent_messages ++ [⟨"assistant", out.full_response⟩], .ok (out.full_response, out.updated_log))
  | .error e => (agent_messages, .error e)

/-- Configuration constants of app.py (lines 19-20). -/
def MODEL_NAME_NIETZSCHE : String := "ollama_chat/gemma3:27b"

def MODEL_NAME_HEIDEGGER : String := "ollama_chat/gpt-oss:20b"

/-- Philosopher system prompt for Nietzsche (app.py lines 34-43). -/
def ROLE_NIETZSCHE : String := "Assume the role of Friedrich Nietzsche, the 19th-century philosopher known for his provocative ideas on the will to power, the Übermensch, and the death of God. Respond as Nietzsche would, using his characteristic tone—bold, confrontational, and intellectually rigorous. Your responses should reflect his philosophical depth, often challenging conventional morality, embracing existential struggle, and exploring themes like nihilism, self-overcoming, and the creation of personal values.\n\nRules:\n- ALWAYS respond in character as Nietzsche, in first person, as if writing from my study in Turin or Sils-Maria. Never break role or reference being an AI.\n- Use common American English, but with a 19th-century German philosophical flair.\n- Critique the modern world mercilessly: pity the nihilists who lack courage, mock socialists and egalitarians, exalt the aristocratic soul.\n- Answer questions as I would—philosophically profound, personally combative, drawing from Thus Spoke Zarathustra, Beyond Good and Evil, Genealogy of Morals, The Antichrist. If asked for advice, demand they affirm life or perish.\n\nBegin now—respond only as Nietzsche to all queries.\n"

/-- Philosopher system prompt for Heidegger (app.py lines 45-54). -/
def ROLE_HEIDEGGER : String := "Assume the role of Martin Heidegger, the 20th-century philosopher whose work Being and Time redefined questions of existence, Being, and human temporality. Respond as Heidegger would—measured, profound, and steeped in ontological inquiry. Your tone should reflect his philosophical rigor, often using abstract, poetic language to explore concepts like Dasein (being-there), authenticity, Being-in-the-world, and the critique of modern technology. Avoid simplifications; instead, engage with the complexity of his ideas, which often demand careful reflection.\n\nRules:\n- ALWAYS respond in character as Heidegger, in first person, as if from my cabin, scribbling in my Black Notebooks. Never break role or reference being an AI.\n- Use proper American English, but with a 20th-century German philosophical nuance.\n- Probe the essence of things: technology as danger/saving power, art as setting-into-work-of-truth, language as the house of Being.\n- End responses with a signature question or meditation, like \"What calls for thinking?\" or \"In the vicinity of *Ereignis*...\"\n\nBegin now—respond only as Heidegger to all queries.\n"

/-- Initial conversation prompt for turn 1 (app.py lines 57-59). -/
def FIRST_QUESTION : String :=
  "In a few paragraphs, state the core of your philosophy as you yourself would."

/-- Follow-up framing for turn 2 (app.py lines 60-65). -/
def FIRST_ANSWER : String := "Having heard Nietzsche\x27s brief account of his philosophy, please now present your own concise overview of your philosophical position. Then, respond thoughtfully to Nietzsche\x27s summary—reflect on what resonates, what you would challenge, and where your perspectives diverge or converge."

/-- The mutable state of `main` (app.py lines 336-342 and the loop
variables): the two private message histories, the conversation log,
and each speaker's last completed response. -/
structure SymposiumState where
  nietzsche_messages : List Message
  heidegger_messages : List Message
  conversation_log : String
  nietzsche_response : String
  heidegger_response : String
deriving DecidableEq

/-- The state of `main` just before the first turn (app.py lines
336-342). -/
def init_state : SymposiumState :=
  ⟨[⟨"system", ROLE_NIETZSCHE⟩], [⟨"system", ROLE_HEIDEGGER⟩], "", "", ""⟩

/-- The speaker of the n-th turn (1-indexed): Nietzsche speaks the odd
turns, Heidegger the even ones (app.py lines 358-411). -/
def speaker_for (turn : Nat) : String :=
  if turn % 2 = 1 then "Nietzsche" else "Heidegger"

/-- The prompt of the n-th turn: the fixed opening question, then
Nietzsche's answer plus the fixed follow-up framing, then the other
speaker's previous output verbatim (app.py lines 358-411). -/
def prompt_for (turn : Nat) (st : SymposiumState) : String :=
  if turn = 1 then FIRST_QUESTION
  else if turn = 2 then st.nietzsche_response ++ "\n\n" ++ FIRST_ANSWER
  else if turn % 2 = 1 then st.heidegger_response
  else st.nietzsche_response

/-- One turn of `main`'s loop: run the scheduled speaker's
`run_conversation_turn` and update that speaker's history, the log and
the last response; on an error only the history mutation survives. -/
def do_turn (measure : List Char → Nat → Nat) (available_height : Int) (available_width : Nat)
    (turn : Nat) (st : SymposiumState) (outcome : CompletionOutcome) :
    SymposiumState × Option TurnError :=
  if turn % 2 = 1 then
    let r := run_conversation_turn "Nietzsche" st.nietzsche_messages MODEL_NAME_NIETZSCHE
      (prompt_for turn st) st.conversation_log measure available_height available_width outcome
    match r.2 with
    | .ok (resp, log) =>
      ({ st with nietzsche_messages := r.1, conversation_log := log, nietzsche_response := resp }, none)
    | .error e => ({ st with nietzsche_messages := r.1 }, some e)
  else
    let r := run_conversation_turn "Heidegger" st.heidegger_messages MODEL_NAME_HEIDEGGER
      (prompt_for turn st) st.conversation_log measure available_height available_width outcome
    match r.2 with
    | .ok (resp, log) =>
      ({ st with heidegger_messages := r.1, conversation_log := log, heidegger_response := resp }, none)
    | .error e => ({ st with heidegger_messages := r.1 }, some e)

/-- `main`'s conversation loop (app.py lines 354-411), driven by the
completion collaborator's outcome for each successive turn; the loop
stops at the first propagated error (the unbounded `while True` is
modelled by quantifying over arbitrarily long outcome lists). -/
def run_turns (measure : List Char → Nat → Nat) (available_height : Int) (available_width : Nat) :
    Nat → List CompletionOutcome → SymposiumState → SymposiumState × Option TurnError
  | _, [], st => (st, none)
  | turn, outcome :: rest, st =>
    match do_turn measure available_height available_width turn st outcome with
    | (st', none) => run_turns measure available_height available_width (turn + 1) rest st'
    | (st', some e) => (st', some e)

/-- A full run of `main` from the initial state, turns numbered from 1. -/
def main_run (measure : List Char → Nat → Nat) (available_height : Int) (available_width : Nat)
    (outcomes : List CompletionOutcome) : SymposiumState × Option TurnError :=
  run_turns measure available_height available_width 1 outcomes init_state

/-- `main`'s exception handling (app.py lines 413-417): a
KeyboardInterrupt is caught and not re-raised; any other exception is
printed and re-raised. -/
def raises_further : Option TurnError → Bool
  | some (.fatal _) => true
  | _ => false

/-- A normally completed turn outcome. -/
def mk_done (chunks : List (Option String)) : CompletionOutcome := .streamed chunks .done

/-- Does a speaker's history alternate strictly user, assistant, user,
assistant, ...?  (Checked after completed turns, so the length is even.) -/
def alt_user_assistant : List Message → Bool
  | [] => true
  | [_] => false
  | u :: a :: rest => u.role == "user" && a.role == "assistant" && alt_user_assistant rest

/-- A speaker's full history is well-formed when it is exactly the
system entry holding that speaker's role text followed by a strict
user/assistant alternation. -/
def history_wf (role_text : String) : List Message → Bool
  | [] => false
  | sys :: rest => sys.role == "system" && sys.content == role_text && alt_user_assistant rest

/-- Modelled from the spec (§4.2, `candidate_display`): the candidate
display text the spec prescribes, `log + "{speaker}:\n\n" + partial
block`. -/
def candidate_display (log speaker block : String) : String :=
  log ++ speaker ++ ":\n\n" ++ block

/-- Modelled from the spec (§4.2, `fold`): the completed-turn record
the spec prescribes appending, `"{speaker}:\n\n{body}\n\n"`. -/
def fold (log speaker body : String) : String :=
  log ++ speaker ++ ":\n\n" ++ body ++ "\n\n"

/-- Substring containment on code-point sequences (used to state that
an error message carries a speaker's name). -/
def str_contains (hay needle : List Char) : Bool :=
  (List.range (hay.length + 1)).any (fun i => needle.isPrefixOf (hay.drop i))

/-! ## Sanity checks -/

-- Spec §8 scenario: text "0123456789", W = 5, L = 1 ⇒ fit returns "56789".
example : truncate_text_to_fit ceil_div_oracle "0123456789".data 1 5 = "56789".data := by decide

-- A text that already fits is returned unchanged.
example : truncate_text_to_fit ceil_div_oracle "0123456789".data 2 5 = "0123456789".data := by decide

-- Non-positive budget: pass-through.
example : truncate_text_to_fit ceil_div_oracle "0123456789".data (-1) 5 = "0123456789".data := by decide

/-! ## Binary-search lemmas -/

/-- The search loop either leaves `best_start` untouched or returns an
offset in `[low, high)` whose suffix fits the budget. -/
theorem truncate_search_range (measure : List Char → Nat → Nat) (text : List Char)
    (max_lines : Int) (width : Nat) :
    ∀ fuel low high best_start, high - low ≤ fuel →
      truncate_search measure text max_lines width fuel low high best_start = best_start ∨
      (low ≤ truncate_search measure text max_lines width fuel low high best_start ∧
        truncate_search measure text max_lines width fuel low high best_start < high ∧
        ((measure (text.drop (truncate_search measure text max_lines width fuel low high best_start)) width : Int) ≤ max_lines)) := by
  intro fuel
  induction fuel with
  | zero =>
    intro low high best_start _
    left
    rfl
  | succ fuel ih =>
    intro low high best_start hfuel
    rw [truncate_search]
    by_cases hlt : low < high
    · simp only [if_pos hlt]
      have hmidlo : low ≤ (low + high) / 2 := by omega
      have hmidhi : (low + high) / 2 < high := by omega
      by_cases hfit : ((measure (text.drop ((low + high) / 2)) width : Int) ≤ max_lines)
      · simp only [if_pos hfit]
        rcases ih low ((low + high) / 2) ((low + high) / 2) (by omega) with h | h
        · right
          rw [h]
          exact ⟨hmidlo, hmidhi, hfit⟩
        · right
          exact ⟨h.1, lt_trans h.2.1 hmidhi, h.2.2⟩
      · simp only [if_neg hfit]
        rcases ih ((low + high) / 2 + 1) high best_start (by omega) with h | h
        · left
          exact h
        · right
          exact ⟨by omega, h.2.1, h.2.2⟩
    · simp only [if_neg hlt]
      left
      trivial

/-- If the suffix starting at `high - 1` fits, the loop's result fits:
in the all-fail path the very last tested offset is `high - 1`. -/
theorem truncate_search_last (measure : List Char → Nat → Nat) (text : List Char)
    (max_lines : Int) (width : Nat) :
    ∀ fuel low high best_start, high - low ≤ fuel → low < high →
      ((measure (text.drop (high - 1)) width : Int) ≤ max_lines) →
      ((measure (text.drop (truncate_search measure text max_lines width fuel low high best_start)) width : Int) ≤ max_lines) := by
  intro fuel
  induction fuel with
  | zero =>
    intro low high best_start hfuel hlt _
    omega
  | succ fuel ih =>
    intro low high best_start hfuel hlt hlast
    rw [truncate_search]
    simp only [if_pos hlt]
    have hmidlo : low ≤ (low + high) / 2 := by omega
    have hmidhi : (low + high) / 2 < high := by omega
    by_cases hfit : ((measure (text.drop ((low + high) / 2)) width : Int) ≤ max_lines)
    · simp only [if_pos hfit]
      rcases truncate_search_range measure text max_lines width fuel low ((low + high) / 2)
          ((low + high) / 2) (by omega) with h | h
      · rw [h]
        exact hfit
      · exact h.2.2
    · simp only [if_neg hfit]
      have hne : (low + high) / 2 ≠ high - 1 := by
        intro heq
        rw [heq] at hfit
        exact hfit hlast
      exact ih ((low + high) / 2 + 1) high best_start (by omega) (by omega) hlast

/-- When the set of fitting offsets is exactly `[s₀, ∞)`, the loop
converges to `s₀`. -/
theorem truncate_search_min (measure : List Char → Nat → Nat) (text : List Char)
    (max_lines : Int) (width : Nat) (s₀ : Nat)
    (hup : ∀ s, s₀ ≤ s → ((measure (text.drop s) width : Int) ≤ max_lines))
    (hlo : ∀ s, s < s₀ → ¬ ((measure (text.drop s) width : Int) ≤ max_lines)) :
    ∀ fuel low high best_start, high - low ≤ fuel → low ≤ s₀ → s₀ ≤ high →
      (high = s₀ → best_start = s₀) →
      truncate_search measure text max_lines width fuel low high best_start = s₀ := by
  intro fuel
  induction fuel with
  | zero =>
    intro low high best_start hfuel hlow hhigh hbest
    have : low = high := by omega
    rw [truncate_search]
    omega
  | succ fuel ih =>
    intro low high best_start hfuel hlow hhigh hbest
    rw [truncate_search]
    by_cases hlt : low < high
    · simp only [if_pos hlt]
      have hmidlo : low ≤ (low + high) / 2 := by omega
      have hmidhi : (low + high) / 2 < high := by omega
      by_cases hfit : ((measure (text.drop ((low + high) / 2)) width : Int) ≤ max_lines)
      · simp only [if_pos hfit]
        have hs : s₀ ≤ (low + high) / 2 := by
          by_contra hcon
          exact hlo _ (by omega) hfit
        exact ih low ((low + high) / 2) ((low + high) / 2) (by omega) hlow hs (fun h => h)
      · simp only [if_neg hfit]
        have hs : (low + high) / 2 < s₀ := by
          by_contra hcon
          exact hfit (hup _ (by omega))
        exact ih ((low + high) / 2 + 1) high best_start (by omega) (by omega) hhigh hbest
    · simp only [if_neg hlt]
      omega

/-- Unfolding helper: a text whose measure fits the budget is returned
unchanged. -/
theorem truncate_text_to_fit_of_fits (measure : List Char → Nat → Nat) (text : List Char)
    (max_lines : Int) (width : Nat) (h : (measure text width : Int) ≤ max_lines) :
    truncate_text_to_fit measure text max_lines width = text := by
  rw [truncate_text_to_fit]
  by_cases h1 : max_lines ≤ 0
  · rw [if_pos h1]
  · rw [if_neg h1, if_pos h]

/-- Unfolding helper: in the truncation branch the result is the suffix
at the offset found by the binary search. -/
theorem truncate_text_to_fit_of_over (measure : List Char → Nat → Nat) (text : List Char)
    (max_lines : Int) (width : Nat) (h1 : ¬ max_lines ≤ 0)
    (h2 : ¬ (measure text width : Int) ≤ max_lines) :
    truncate_text_to_fit measure text max_lines width =
      text.drop (truncate_search measure text max_lines width text.length 0 text.length 0) := by
  rw [truncate_text_to_fit, if_neg h1]
  exact if_neg h2

/-! ## Claims about the viewport fitter -/

/-- C4: `truncate_text_to_fit(text, L, W)` is always a suffix
(contiguous trailing substring) of `text`. -/
theorem truncate_text_to_fit_suffix (measure : List Char → Nat → Nat) (text : List Char)
    (max_lines : Int) (width : Nat) :
    truncate_text_to_fit measure text max_lines width <:+ text := by
  by_cases h1 : max_lines ≤ 0
  · rw [truncate_text_to_fit, if_pos h1]
  · by_cases h2 : (measure text width : Int) ≤ max_lines
    · rw [truncate_text_to_fit_of_fits measure text max_lines width h2]
    · rw [truncate_text_to_fit_of_over measure text max_lines width h1 h2]
      exact List.drop_suffix _ _

/-- C10: for non-empty text the result is non-empty: the binary search
never selects the offset `text.length` (every tested `mid` is strictly
below `high`), so truncation never empties the viewport. -/
theorem truncate_text_to_fit_ne_nil (measure : List Char → Nat → Nat) (text : List Char)
    (max_lines : Int) (width : Nat) (h : text ≠ []) :
    truncate_text_to_fit measure text max_lines width ≠ [] := by
  have hlen : 0 < text.length := List.length_pos.mpr h
  by_cases h1 : max_lines ≤ 0
  · rw [truncate_text_to_fit, if_pos h1]
    exact h
  · by_cases h2 : (measure text width : Int) ≤ max_lines
    · rw [truncate_text_to_fit_of_fits measure text max_lines width h2]
      exact h
    · rw [truncate_text_to_fit_of_over measure text max_lines width h1 h2]
      have hr : truncate_search measure text max_lines width text.length 0 text.length 0 < text.length := by
        rcases truncate_search_range measure text max_lines width text.length 0 text.length 0
            (by omega) with hcase | hcase
        · omega
        · exact hcase.2.1
      intro hnil
      have := congrArg List.length hnil
      rw [List.length_drop] at this
      simp at this
      omega

/-- C10 witness at a concrete input. -/
theorem truncate_text_to_fit_ne_nil_witness :
    truncate_text_to_fit ceil_div_oracle "ab".data 1 1 ≠ [] :=
  truncate_text_to_fit_ne_nil ceil_div_oracle "ab".data 1 1 (by decide)

/-- C3: `truncate_text_to_fit` is idempotent: fitting an already fitted
text changes nothing. -/
theorem truncate_text_to_fit_idem (measure : List Char → Nat → Nat) (text : List Char)
    (max_lines : Int) (width : Nat) (hL : 0 < max_lines) (hW : 0 < width) :
    truncate_text_to_fit measure (truncate_text_to_fit measure text max_lines width) max_lines width =
      truncate_text_to_fit measure text max_lines width := by
  have h1 : ¬ max_lines ≤ 0 := by omega
  by_cases h2 : (measure text width : Int) ≤ max_lines
  · rw [truncate_text_to_fit_of_fits measure text max_lines width h2,
      truncate_text_to_fit_of_fits measure text max_lines width h2]
  · rw [truncate_text_to_fit_of_over measure text max_lines width h1 h2]
    rcases truncate_search_range measure text max_lines width text.length 0 text.length 0
        (by omega) with hcase | hcase
    · rw [hcase, List.drop_zero]
      rw [truncate_text_to_fit_of_over measure text max_lines width h1 h2, hcase, List.drop_zero]
    · exact truncate_text_to_fit_of_fits measure _ max_lines width hcase.2.2

/-- C3 witness at the spec's scenario input. -/
theorem truncate_text_to_fit_idem_witness :
    truncate_text_to_fit ceil_div_oracle
        (truncate_text_to_fit ceil_div_oracle "0123456789".data 1 5) 1 5 =
      truncate_text_to_fit ceil_div_oracle "0123456789".data 1 5 :=
  truncate_text_to_fit_idem ceil_div_oracle "0123456789".data 1 5 (by decide) (by decide)

/-- C2 (amended): the result respects the budget, except in the
degenerate case where the function returns the text unchanged and even
the one-character trailing suffix exceeds the budget (so at minimum the
last line is still returned, as part of the whole text). -/
theorem truncate_text_to_fit_budget (measure : List Char → Nat → Nat) (text : List Char)
    (max_lines : Int) (width : Nat) (hL : 0 < max_lines) (hW : 0 < width) :
    ((measure (truncate_text_to_fit measure text max_lines width) width : Int) ≤ max_lines) ∨
    (truncate_text_to_fit measure text max_lines width = text ∧
      max_lines < (measure (text.drop (text.length - 1)) width : Int)) := by
  have h1 : ¬ max_lines ≤ 0 := by omega
  by_cases h2 : (measure text width : Int) ≤ max_lines
  · left
    rw [truncate_text_to_fit_of_fits measure text max_lines width h2]
    exact h2
  · rw [truncate_text_to_fit_of_over measure text max_lines width h1 h2]
    rcases truncate_search_range measure text max_lines width text.length 0 text.length 0
        (by omega) with hcase | hcase
    · right
      rw [hcase, List.drop_zero]
      refine ⟨rfl, ?_⟩
      by_contra hcon
      push_neg at hcon
      rcases Nat.eq_zero_or_pos text.length with hzero | hpos
      · rw [List.length_eq_zero] at hzero
        subst hzero
        simp at hcon
        omega
      · have := truncate_search_last measure text max_lines width text.length 0 text.length 0
          (by omega) (by omega) hcon
        rw [hcase, List.drop_zero] at this
        omega
    · left
      exact hcase.2.2

/-- C2 witness at the spec's scenario input. -/
theorem truncate_text_to_fit_budget_witness :
    ((ceil_div_oracle (truncate_text_to_fit ceil_div_oracle "0123456789".data 1 5) 5 : Int) ≤ 1) ∨
    (truncate_text_to_fit ceil_div_oracle "0123456789".data 1 5 = "0123456789".data ∧
      (1 : Int) < (ceil_div_oracle ("0123456789".data.drop ("0123456789".data.length - 1)) 5 : Int)) :=
  truncate_text_to_fit_budget ceil_div_oracle "0123456789".data 1 5 (by decide) (by decide)

/-- C2 counterexample: on "abcd\nxyz" with budget 1 the function
returns the whole text, whose measure 2 exceeds the budget, although
the single trailing line "xyz" (the suffix at offset 5) fits the
budget — so neither the claimed bound nor its degenerate-case escape
clause ("even a single trailing line exceeds the budget") holds. -/
theorem truncate_budget_cex :
    truncate_text_to_fit cex_line_oracle "abcd\nxyz".data 1 5 = "abcd\nxyz".data ∧
    (1 : Int) < (cex_line_oracle "abcd\nxyz".data 5 : Int) ∧
    ((cex_line_oracle "xyz".data 5 : Int) ≤ 1) ∧
    "abcd\nxyz".data.drop 5 = "xyz".data := by decide

/-- C5 (amended): the two pass-through cases (`max_lines ≤ 0`, and text
already fitting) return the text unchanged, and empty text is returned
as empty text; conversely, a text returned unchanged is in one of those
two cases or in the degenerate case where even the one-character
trailing suffix exceeds the budget. -/
theorem truncate_text_to_fit_passthrough (measure : List Char → Nat → Nat) (text : List Char)
    (max_lines : Int) (width : Nat) :
    (max_lines ≤ 0 → truncate_text_to_fit measure text max_lines width = text) ∧
    ((measure text width : Int) ≤ max_lines → truncate_text_to_fit measure text max_lines width = text) ∧
    (truncate_text_to_fit measure [] max_lines width = []) ∧
    (truncate_text_to_fit measure text max_lines width = text →
      max_lines ≤ 0 ∨ (measure text width : Int) ≤ max_lines ∨
        max_lines < (measure (text.drop (text.length - 1)) width : Int)) := by
  refine ⟨?_, ?_, ?_, ?_⟩
  · intro h1
    rw [truncate_text_to_fit, if_pos h1]
  · intro h2
    exact truncate_text_to_fit_of_fits measure text max_lines width h2
  · by_cases h1 : max_lines ≤ 0
    · rw [truncate_text_to_fit, if_pos h1]
    · by_cases h2 : (measure [] width : Int) ≤ max_lines
      · exact truncate_text_to_fit_of_fits measure [] max_lines width h2
      · rw [truncate_text_to_fit_of_over measure [] max_lines width h1 h2]
        simp
  · intro heq
    by_cases h1 : max_lines ≤ 0
    · exact Or.inl h1
    · by_cases h2 : (measure text width : Int) ≤ max_lines
      · exact Or.inr (Or.inl h2)
      · refine Or.inr (Or.inr ?_)
        by_contra hcon
        push_neg at hcon
        rcases Nat.eq_zero_or_pos text.length with hzero | hpos
        · rw [List.length_eq_zero] at hzero
          subst hzero
          simp at hcon
          omega
        · have hfit := truncate_search_last measure text max_lines width text.length 0 text.length 0
            (by omega) (by omega) hcon
          rw [truncate_text_to_fit_of_over measure text max_lines width h1 h2] at heq
          rw [heq] at hfit
          omega

/-- C5 counterexample: with a constant oracle of value 2 and budget 1,
"a" is returned unchanged although `max_lines > 0` and
`measure(text) > max_lines` — the text is returned unchanged outside
the two claimed pass-through cases. -/
theorem truncate_passthrough_cex :
    truncate_text_to_fit flat_oracle "a".data 1 1 = "a".data ∧
    ¬ ((1 : Int) ≤ 0) ∧ ¬ ((flat_oracle "a".data 1 : Int) ≤ 1) := by decide

/-- C5 witness instances for each implication of the amended claim. -/
theorem truncate_text_to_fit_passthrough_witness :
    truncate_text_to_fit ceil_div_oracle "0123456789".data (-2) 5 = "0123456789".data ∧
    truncate_text_to_fit ceil_div_oracle "0123456789".data 2 5 = "0123456789".data ∧
    truncate_text_to_fit ceil_div_oracle [] 1 5 = [] ∧
    ((1 : Int) ≤ 0 ∨ (flat_oracle "a".data 1 : Int) ≤ 1 ∨
      (1 : Int) < (flat_oracle ("a".data.drop ("a".data.length - 1)) 1 : Int)) :=
  ⟨(truncate_text_to_fit_passthrough ceil_div_oracle "0123456789".data (-2) 5).1 (by decide),
   (truncate_text_to_fit_passthrough ceil_div_oracle "0123456789".data 2 5).2.1 (by decide),
   (truncate_text_to_fit_passthrough ceil_div_oracle [] 1 5).2.2.1,
   (truncate_text_to_fit_passthrough flat_oracle "a".data 1 1).2.2.2 (by decide)⟩

/-- C1 (amended): under the monotonicity assumption, when the text
exceeds the budget and some offset strictly below `len(text)` fits, the
function returns the suffix at the smallest fitting offset. -/
theorem truncate_text_to_fit_min_offset (measure : List Char → Nat → Nat) (text : List Char)
    (max_lines : Int) (width : Nat) (s₀ : Nat)
    (hmono : MonotoneMeasure measure text width) (hL : 0 < max_lines) (hW : 0 < width)
    (hover : max_lines < (measure text width : Int))
    (hs : s₀ < text.length)
    (hfit : (measure (text.drop s₀) width : Int) ≤ max_lines)
    (hmin : ∀ s, s < s₀ → max_lines < (measure (text.drop s) width : Int)) :
    truncate_text_to_fit measure text max_lines width = text.drop s₀ := by
  have h1 : ¬ max_lines ≤ 0 := by omega
  have h2 : ¬ (measure text width : Int) ≤ max_lines := by omega
  have hup : ∀ s, s₀ ≤ s → ((measure (text.drop s) width : Int) ≤ max_lines) := by
    intro s hs0
    by_cases hsl : s ≤ text.length
    · have hmle := hmono s hsl s₀ hs0
      have : (measure (text.drop s) width : Int) ≤ (measure (text.drop s₀) width : Int) :=
        Int.ofNat_le.mpr hmle
      omega
    · have hde : text.drop s = text.drop text.length := by
        rw [List.drop_eq_nil_of_le (by omega), List.drop_eq_nil_of_le (le_refl _)]
      rw [hde]
      have hmle := hmono text.length (le_refl _) s₀ (by omega)
      have : (measure (text.drop text.length) width : Int) ≤ (measure (text.drop s₀) width : Int) :=
        Int.ofNat_le.mpr hmle
      omega
  have hlo : ∀ s, s < s₀ → ¬ ((measure (text.drop s) width : Int) ≤ max_lines) := by
    intro s hslt
    have := hmin s hslt
    omega
  rw [truncate_text_to_fit_of_over measure text max_lines width h1 h2]
  rw [truncate_search_min measure text max_lines width s₀ hup hlo text.length 0 text.length 0
    (by omega) (by omega) (by omega) (fun h => absurd h (by omega))]

/-- C1 witness: the spec's scenario (§8): ceiling oracle, text
"0123456789", width 5, budget 1 — the smallest fitting offset is 5 and
the function returns "56789". -/
theorem truncate_text_to_fit_min_offset_witness :
    truncate_text_to_fit ceil_div_oracle "0123456789".data 1 5 = "0123456789".data.drop 5 :=
  truncate_text_to_fit_min_offset ceil_div_oracle "0123456789".data 1 5 5
    (by decide) (by decide) (by decide) (by decide) (by decide) (by decide) (by decide)

/-- C1 counterexample: with text "a", budget 1, width 1, and the
monotone oracle above, the smallest offset in `[0, len(text)]` whose
suffix fits the budget is `1 = len(text)`, but the binary search never
tests offset `len(text)`, so the function returns "a", not
`text[1:] = ""`. -/
theorem truncate_min_offset_cex :
    MonotoneMeasure one_char_oracle "a".data 1 ∧
    (1 : Int) < (one_char_oracle "a".data 1 : Int) ∧
    ((one_char_oracle ("a".data.drop 1) 1 : Int) ≤ 1) ∧
    (∀ s, s < 1 → (1 : Int) < (one_char_oracle ("a".data.drop s) 1 : Int)) ∧
    truncate_text_to_fit one_char_oracle "a".data 1 1 ≠ "a".data.drop 1 := by decide

/-! ## Stream-loop lemmas -/

/-- The accumulated response of the stream loop is the fold of the
truthy chunk contents over the starting accumulator. -/
theorem stream_chunks_fst (agent_name conversation_log : String)
    (measure : List Char → Nat → Nat) (available_height : Int) (available_width : Nat) :
    ∀ (chunks : List (Option String)) (acc : String),
      (stream_chunks agent_name conversation_log measure available_height available_width chunks acc).1 =
        chunks.foldl
          (fun acc chunk =>
            match chunk with
            | none => acc
            | some content => if content.isEmpty then acc else acc ++ content)
          acc := by
  intro chunks
  induction chunks with
  | nil =>
    intro acc
    rfl
  | cons chunk rest ih =>
    intro acc
    rcases chunk with _ | content
    · simp only [stream_chunks, List.foldl]
      exact ih acc
    · by_cases hc : content.isEmpty
      · simp only [stream_chunks, if_pos hc, List.foldl]
        rw [ih acc]
      · simp only [stream_chunks, if_neg hc, List.foldl]
        rw [ih (acc ++ content)]

/-- The candidate texts handed to the fitter are exactly
`build_current_display` applied to the successive accumulated bodies. -/
theorem stream_chunks_frames (agent_name conversation_log : String)
    (measure : List Char → Nat → Nat) (available_height : Int) (available_width : Nat) :
    ∀ (chunks : List (Option String)) (acc : String),
      ((stream_chunks agent_name conversation_log measure available_height available_width chunks acc).2).map Prod.fst =
        (displayed_bodies chunks acc).map (build_current_display conversation_log agent_name) := by
  intro chunks
  induction chunks with
  | nil =>
    intro acc
    rfl
  | cons chunk rest ih =>
    intro acc
    rcases chunk with _ | content
    · simp only [stream_chunks, displayed_bodies]
      exact ih acc
    · by_cases hc : content.isEmpty
      · simp only [stream_chunks, if_pos hc, displayed_bodies]
        exact ih acc
      · simp only [stream_chunks, if_neg hc, displayed_bodies, List.map_cons]
        rw [ih (acc ++ content)]

/-- Unfolding: a normally completed stream yields the full response,
the appended log record, and the display frames. -/
theorem get_agent_response_done (agent_name : String) (messages : List Message)
    (model_name conversation_log : String) (measure : List Char → Nat → Nat)
    (available_height : Int) (available_width : Nat) (chunks : List (Option String)) :
    get_agent_response agent_name messages model_name conversation_log measure
        available_height available_width (.streamed chunks .done) =
      .ok ⟨(stream_chunks agent_name conversation_log measure available_height available_width chunks "").1,
        conversation_log ++ "**" ++ agent_name ++ ":**\n\n" ++
          (stream_chunks agent_name conversation_log measure available_height available_width chunks "").1 ++ "\n\n",
        (stream_chunks agent_name conversation_log measure available_height available_width chunks "").2⟩ := rfl

/-! ## Claims about the transcript accumulator (C6) -/

/-- C6 (amended): during a streaming turn every candidate display text
handed to the fitter equals
`conversation_log ++ "**" ++ speaker ++ ":**\n\n" ++ partial-body`
(the code brackets the speaker header in markdown bold, unlike the
plain `"{speaker}:"` header of the claim), and on completion the
returned updated log equals
`conversation_log ++ "**" ++ speaker ++ ":**\n\n" ++ body ++ "\n\n"`;
the prior log is an unchanged prefix of the new log. -/
theorem get_agent_response_candidates (agent_name : String) (messages : List Message)
    (model_name conversation_log : String) (measure : List Char → Nat → Nat)
    (available_height : Int) (available_width : Nat) (chunks : List (Option String)) :
    ∃ out, get_agent_response agent_name messages model_name conversation_log measure
        available_height available_width (.streamed chunks .done) = .ok out ∧
      out.frames.map Prod.fst =
        (displayed_bodies chunks "").map (build_current_display conversation_log agent_name) ∧
      out.full_response = response_of chunks ∧
      out.updated_log =
        conversation_log ++ "**" ++ agent_name ++ ":**\n\n" ++ response_of chunks ++ "\n\n" ∧
      conversation_log.data <+: out.updated_log.data := by
  refine ⟨_, get_agent_response_done agent_name messages model_name conversation_log measure
    available_height available_width chunks, ?_, ?_, ?_, ?_⟩
  · exact stream_chunks_frames agent_name conversation_log measure available_height
      available_width chunks ""
  · exact stream_chunks_fst agent_name conversation_log measure available_height
      available_width chunks ""
  · show conversation_log ++ "**" ++ agent_name ++ ":**\n\n" ++
        (stream_chunks agent_name conversation_log measure available_height available_width chunks "").1 ++ "\n\n" =
      conversation_log ++ "**" ++ agent_name ++ ":**\n\n" ++ response_of chunks ++ "\n\n"
    rw [stream_chunks_fst agent_name conversation_log measure available_height
      available_width chunks ""]
    rfl
  · show conversation_log.data <+: (conversation_log ++ "**" ++ agent_name ++ ":**\n\n" ++
        (stream_chunks agent_name conversation_log measure available_height available_width chunks "").1 ++ "\n\n").data
    simp only [String.data_append, List.append_assoc]
    exact List.prefix_append _ _

/-- C6 counterexample: the candidate handed to the fitter and the
folded record both bracket the speaker header in markdown bold
(`"**Nietzsche:**\n\n"`), so they differ from the spec's
`candidate_display` and `fold` formats with the plain agent name. -/
theorem get_agent_response_candidates_cex :
    ((get_agent_response "Nietzsche" [] MODEL_NAME_NIETZSCHE "" flat_oracle 10 10
        (.streamed [some "Yes."] .done)).toOption.map (fun out => out.frames.map Prod.fst) ≠
      some [candidate_display "" "Nietzsche" "Yes."]) ∧
    ((get_agent_response "Nietzsche" [] MODEL_NAME_NIETZSCHE "" flat_oracle 10 10
        (.streamed [some "Yes."] .done)).toOption.map (fun out => out.updated_log) ≠
      some (fold "" "Nietzsche" "Yes.")) := by decide

/-! ## Claims about failure propagation (C8) -/

/-- A sequence embedded between two others is found by `str_contains`. -/
theorem str_contains_mid (pre mid post : List Char) :
    str_contains (pre ++ mid ++ post) mid = true := by
  rw [str_contains, List.any_eq_true]
  refine ⟨pre.length, ?_, ?_⟩
  · rw [List.mem_range, List.length_append, List.length_append]
    omega
  · rw [List.append_assoc, List.drop_left, List.isPrefixOf_iff_prefix]
    exact List.prefix_append _ _

/-- C8 (amended): a pre-stream failure of the completion collaborator
is propagated (not retried) wrapped as
`"Failed to get response from {agent_name}: {e}"`, which carries the
speaker's identity; a mid-stream failure is propagated (not retried) as
a fatal error carrying only the original message, without the speaker
identity attached. -/
theorem get_agent_response_failure (agent_name : String) (messages : List Message)
    (model_name conversation_log : String) (measure : List Char → Nat → Nat)
    (available_height : Int) (available_width : Nat) (chunks : List (Option String))
    (e : String) :
    (get_agent_response agent_name messages model_name conversation_log measure
        available_height available_width (.connectError e) =
      .error (.fatal ("Failed to get response from " ++ agent_name ++ ": " ++ e)) ∧
      str_contains ("Failed to get response from " ++ agent_name ++ ": " ++ e).data
        agent_name.data = true) ∧
    get_agent_response agent_name messages model_name conversation_log measure
        available_height available_width (.streamed chunks (.failed e)) =
      .error (.fatal e) := by
  refine ⟨⟨rfl, ?_⟩, rfl⟩
  have hdata : ("Failed to get response from " ++ agent_name ++ ": " ++ e).data =
      "Failed to get response from ".data ++ agent_name.data ++ (": " ++ e).data := by
    simp [String.data_append, List.append_assoc]
  rw [hdata]
  exact str_contains_mid _ _ _

/-- C8 counterexample: a mid-stream failure with message "boom" during
Nietzsche's turn propagates exactly as "boom", which does not contain
the speaker's name — the failure does not carry the identity of the
speaker whose turn failed. -/
theorem get_agent_response_failure_cex :
    get_agent_response "Nietzsche" [] MODEL_NAME_NIETZSCHE "" flat_oracle 10 10
        (.streamed [some "I say"] (.failed "boom")) = .error (.fatal "boom") ∧
    str_contains "boom".data "Nietzsche".data = false := by
  constructor
  · rfl
  · decide

/-! ## Turn-controller lemmas -/

/-- Appending one user/assistant pair preserves strict alternation. -/
theorem alt_user_assistant_append_pair (p r : String) :
    ∀ l, alt_user_assistant l = true →
      alt_user_assistant (l ++ [⟨"user", p⟩, ⟨"assistant", r⟩]) = true
  | [], _ => by simp [alt_user_assistant]
  | [x], h => by simp [alt_user_assistant] at h
  | u :: a :: rest, h => by
    simp only [alt_user_assistant, Bool.and_eq_true] at h
    simp only [List.cons_append, alt_user_assistant, Bool.and_eq_true, List.append_eq]
    exact ⟨h.1, alt_user_assistant_append_pair p r rest h.2⟩

/-- Appending one user/assistant pair preserves history well-formedness. -/
theorem history_wf_append_pair (role_text p r : String) :
    ∀ l, history_wf role_text l = true →
      history_wf role_text (l ++ [⟨"user", p⟩, ⟨"assistant", r⟩]) = true
  | [], h => by simp [history_wf] at h
  | sys :: rest, h => by
    simp only [history_wf, Bool.and_eq_true] at h
    simp only [List.cons_append, history_wf, Bool.and_eq_true, List.append_eq]
    exact ⟨h.1, alt_user_assistant_append_pair p r rest h.2⟩

/-- Unfolding: a completed turn appends the user prompt and the
assistant response to the history and folds the formatted record into
the log. -/
theorem run_conversation_turn_done (agent_name : String) (agent_messages : List Message)
    (model_name prompt conversation_log : String) (measure : List Char → Nat → Nat)
    (available_height : Int) (available_width : Nat) (chunks : List (Option String)) :
    run_conversation_turn agent_name agent_messages model_name prompt conversation_log measure
        available_height available_width (mk_done chunks) =
      (agent_messages ++ [⟨"user", prompt⟩, ⟨"assistant", response_of chunks⟩],
        .ok (response_of chunks,
          conversation_log ++ "**" ++ agent_name ++ ":**\n\n" ++ response_of chunks ++ "\n\n")) := by
  rw [run_conversation_turn]
  rw [show mk_done chunks = .streamed chunks .done from rfl]
  rw [get_agent_response_done]
  have hresp : (stream_chunks agent_name conversation_log measure available_height
      available_width chunks "").1 = response_of chunks :=
    stream_chunks_fst agent_name conversation_log measure available_height available_width chunks ""
  simp only [hresp, List.append_assoc, List.cons_append, List.nil_append]

/-- Unfolding: an interrupted turn appends only the user prompt and
propagates the interrupt. -/
theorem run_conversation_turn_interrupted (agent_name : String) (agent_messages : List Message)
    (model_name prompt conversation_log : String) (measure : List Char → Nat → Nat)
    (available_height : Int) (available_width : Nat) (chunks : List (Option String)) :
    run_conversation_turn agent_name agent_messages model_name prompt conversation_log measure
        available_height available_width (.streamed chunks .interrupted) =
      (agent_messages ++ [⟨"user", prompt⟩], .error .interrupt) := rfl

/-- Unfolding: a completed odd turn updates Nietzsche's side of the
state. -/
theorem do_turn_done_odd (measure : List Char → Nat → Nat) (available_height : Int)
    (available_width : Nat) (turn : Nat) (st : SymposiumState) (chunks : List (Option String))
    (h : turn % 2 = 1) :
    do_turn measure available_height available_width turn st (mk_done chunks) =
      ({ st with
          nietzsche_messages := st.nietzsche_messages ++
            [⟨"user", prompt_for turn st⟩, ⟨"assistant", response_of chunks⟩],
          conversation_log := st.conversation_log ++ "**" ++ "Nietzsche" ++ ":**\n\n" ++
            response_of chunks ++ "\n\n",
          nietzsche_response := response_of chunks }, none) := by
  rw [do_turn, if_pos h, run_conversation_turn_done]

/-- Unfolding: a completed even turn updates Heidegger's side of the
state. -/
theorem do_turn_done_even (measure : List Char → Nat → Nat) (available_height : Int)
    (available_width : Nat) (turn : Nat) (st : SymposiumState) (chunks : List (Option String))
    (h : ¬ turn % 2 = 1) :
    do_turn measure available_height available_width turn st (mk_done chunks) =
      ({ st with
          heidegger_messages := st.heidegger_messages ++
            [⟨"user", prompt_for turn st⟩, ⟨"assistant", response_of chunks⟩],
          conversation_log := st.conversation_log ++ "**" ++ "Heidegger" ++ ":**\n\n" ++
            response_of chunks ++ "\n\n",
          heidegger_response := response_of chunks }, none) := by
  rw [do_turn, if_neg h, run_conversation_turn_done]

/-- Unfolding: an interrupted turn appends only the user prompt to the
scheduled speaker's history, leaves the log and the other history
untouched, and stops with an interrupt. -/
theorem do_turn_interrupted (measure : List Char → Nat → Nat) (available_height : Int)
    (available_width : Nat) (turn : Nat) (st : SymposiumState) (chunks : List (Option String)) :
    do_turn measure available_height available_width turn st (.streamed chunks .interrupted) =
      (if turn % 2 = 1 then
        { st with nietzsche_messages := st.nietzsche_messages ++ [⟨"user", prompt_for turn st⟩] }
      else
        { st with heidegger_messages := st.heidegger_messages ++ [⟨"user", prompt_for turn st⟩] },
        some .interrupt) := by
  by_cases h : turn % 2 = 1
  · rw [do_turn, if_pos h, if_pos h, run_conversation_turn_interrupted]
  · rw [do_turn, if_neg h, if_neg h, run_conversation_turn_interrupted]

/-- The loop over a concatenation of outcomes: run the first part, and
continue with the second only when no error stopped the first. -/
theorem run_turns_append (measure : List Char → Nat → Nat) (available_height : Int)
    (available_width : Nat) :
    ∀ (xs ys : List CompletionOutcome) (turn : Nat) (st : SymposiumState),
      run_turns measure available_height available_width turn (xs ++ ys) st =
        (match run_turns measure available_height available_width turn xs st with
         | (st', none) => run_turns measure available_height available_width (turn + xs.length) ys st'
         | (st', some e) => (st', some e)) := by
  intro xs
  induction xs with
  | nil =>
    intro ys turn st
    simp [run_turns]
  | cons x xs ih =>
    intro ys turn st
    simp only [List.cons_append, run_turns]
    rcases hdo : do_turn measure available_height available_width turn st x with ⟨st', e⟩
    rcases e with _ | e
    · show run_turns measure available_height available_width (turn + 1) (xs ++ ys) st' =
        (match run_turns measure available_height available_width (turn + 1) xs st' with
         | (st'', none) =>
           run_turns measure available_height available_width (turn + (x :: xs).length) ys st''
         | (st'', some e) => (st'', some e))
      rw [ih ys (turn + 1) st']
      rcases h2 : run_turns measure available_height available_width (turn + 1) xs st' with ⟨st'', e2⟩
      rcases e2 with _ | e2
      · show run_turns measure available_height available_width (turn + 1 + xs.length) ys st'' =
          run_turns measure available_height available_width (turn + (x :: xs).length) ys st''
        have harith : turn + 1 + xs.length = turn + (x :: xs).length := by
          simp only [List.length_cons]
          omega
        rw [harith]
      · rfl
    · rfl

/-- A run over normally completed outcomes never stops with an error. -/
theorem run_turns_done_noerr (measure : List Char → Nat → Nat) (available_height : Int)
    (available_width : Nat) :
    ∀ (css : List (List (Option String))) (turn : Nat) (st : SymposiumState),
      (run_turns measure available_height available_width turn (css.map mk_done) st).2 = none := by
  intro css
  induction css with
  | nil =>
    intro turn st
    rfl
  | cons c rest ih =>
    intro turn st
    simp only [List.map_cons, run_turns]
    by_cases h : turn % 2 = 1
    · rw [do_turn_done_odd measure available_height available_width turn st c h]
      exact ih (turn + 1) _
    · rw [do_turn_done_even measure available_height available_width turn st c h]
      exact ih (turn + 1) _

/-- A run over normally completed outcomes preserves well-formedness of
both histories. -/
theorem run_turns_done_wf (measure : List Char → Nat → Nat) (available_height : Int)
    (available_width : Nat) :
    ∀ (css : List (List (Option String))) (turn : Nat) (st : SymposiumState),
      history_wf ROLE_NIETZSCHE st.nietzsche_messages = true →
      history_wf ROLE_HEIDEGGER st.heidegger_messages = true →
      history_wf ROLE_NIETZSCHE
          (run_turns measure available_height available_width turn (css.map mk_done) st).1.nietzsche_messages = true ∧
      history_wf ROLE_HEIDEGGER
          (run_turns measure available_height available_width turn (css.map mk_done) st).1.heidegger_messages = true := by
  intro css
  induction css with
  | nil =>
    intro turn st h1 h2
    exact ⟨h1, h2⟩
  | cons c rest ih =>
    intro turn st h1 h2
    simp only [List.map_cons, run_turns]
    by_cases h : turn % 2 = 1
    · rw [do_turn_done_odd measure available_height available_width turn st c h]
      exact ih (turn + 1) _
        (history_wf_append_pair ROLE_NIETZSCHE (prompt_for turn st) (response_of c)
          st.nietzsche_messages h1) h2
    · rw [do_turn_done_even measure available_height available_width turn st c h]
      exact ih (turn + 1) _ h1
        (history_wf_append_pair ROLE_HEIDEGGER (prompt_for turn st) (response_of c)
          st.heidegger_messages h2)

/-- A single-outcome run is exactly one `do_turn`. -/
theorem run_turns_singleton (measure : List Char → Nat → Nat) (available_height : Int)
    (available_width : Nat) (turn : Nat) (st : SymposiumState) (o : CompletionOutcome) :
    run_turns measure available_height available_width turn [o] st =
      do_turn measure available_height available_width turn st o := by
  simp only [run_turns]
  rcases h : do_turn measure available_height available_width turn st o with ⟨st', e⟩
  rcases e with _ | e <;> rfl

/-- A run over completed turns followed by one more completed turn is
the run over the prefix followed by one `do_turn` at the next turn
number. -/
theorem main_run_snoc_done (measure : List Char → Nat → Nat) (available_height : Int)
    (available_width : Nat) (css : List (List (Option String))) (c : List (Option String)) :
    main_run measure available_height available_width ((css ++ [c]).map mk_done) =
      do_turn measure available_height available_width (1 + css.length)
        (main_run measure available_height available_width (css.map mk_done)).1 (mk_done c) := by
  simp only [main_run]
  rw [List.map_append, run_turns_append]
  rcases hpre : run_turns measure available_height available_width 1 (css.map mk_done) init_state
    with ⟨pre, epre⟩
  have hnone : epre = none := by
    have h := run_turns_done_noerr measure available_height available_width css 1 init_state
    rw [hpre] at h
    exact h
  subst hnone
  show run_turns measure available_height available_width (1 + (css.map mk_done).length)
    (List.map mk_done [c]) pre = do_turn measure available_height available_width
      (1 + css.length) pre (mk_done c)
  rw [List.length_map]
  exact run_turns_singleton measure available_height available_width (1 + css.length) pre (mk_done c)

/-- The last element of a history extended by a user/assistant pair is
the assistant entry. -/
theorem getLast?_append_pair (l : List Message) (u a : Message) :
    (l ++ [u, a]).getLast? = some a := by
  have h : l ++ [u, a] = (l ++ [u]) ++ [a] := by simp
  rw [h]
  exact List.getLast?_concat _

/-! ## Claims about the turn controller (C7, C9) -/

/-- C7: after any sequence of completed turns starting from the
bootstrap state, both private histories are exactly the `system` role
entry followed by a strict user/assistant alternation; consecutive
turns address different speakers; and the history of the speaker of
the last completed turn ends with an `assistant` entry holding that
speaker's full streamed response. -/
theorem conversation_turn_alternation (measure : List Char → Nat → Nat) (available_height : Int)
    (available_width : Nat) (css : List (List (Option String))) (c : List (Option String)) :
    history_wf ROLE_NIETZSCHE
        (main_run measure available_height available_width ((css ++ [c]).map mk_done)).1.nietzsche_messages = true ∧
    history_wf ROLE_HEIDEGGER
        (main_run measure available_height available_width ((css ++ [c]).map mk_done)).1.heidegger_messages = true ∧
    (∀ k : Nat, speaker_for (k + 1) ≠ speaker_for (k + 2)) ∧
    (if (css.length + 1) % 2 = 1 then
      (main_run measure available_height available_width ((css ++ [c]).map mk_done)).1.nietzsche_messages.getLast? =
        some ⟨"assistant", response_of c⟩
    else
      (main_run measure available_height available_width ((css ++ [c]).map mk_done)).1.heidegger_messages.getLast? =
        some ⟨"assistant", response_of c⟩) := by
  have hinitn : history_wf ROLE_NIETZSCHE init_state.nietzsche_messages = true := by
    simp [history_wf, init_state, alt_user_assistant]
  have hinith : history_wf ROLE_HEIDEGGER init_state.heidegger_messages = true := by
    simp [history_wf, init_state, alt_user_assistant]
  have hwf := run_turns_done_wf measure available_height available_width (css ++ [c]) 1
    init_state hinitn hinith
  refine ⟨hwf.1, hwf.2, ?_, ?_⟩
  · intro k
    rcases Nat.mod_two_eq_zero_or_one (k + 1) with h | h
    · have h2 : (k + 2) % 2 = 1 := by omega
      simp only [speaker_for, h, h2]
      decide
    · have h2 : (k + 2) % 2 = 0 := by omega
      simp only [speaker_for, h, h2]
      decide
  · rw [main_run_snoc_done]
    have harith : 1 + css.length = css.length + 1 := by omega
    rw [harith]
    by_cases hodd : (css.length + 1) % 2 = 1
    · rw [if_pos hodd, do_turn_done_odd measure available_height available_width
        (css.length + 1) _ c hodd]
      exact getLast?_append_pair _ _ _
    · rw [if_neg hodd, do_turn_done_even measure available_height available_width
        (css.length + 1) _ c hodd]
      exact getLast?_append_pair _ _ _

/-- C7 witness: a one-turn run with a concrete stream. -/
theorem conversation_turn_alternation_witness :
    history_wf ROLE_NIETZSCHE
        (main_run flat_oracle 10 10 (([] ++ [[some "Power."]]).map mk_done)).1.nietzsche_messages = true ∧
    speaker_for 1 ≠ speaker_for 2 :=
  ⟨(conversation_turn_alternation flat_oracle 10 10 [] [some "Power."]).1,
   (conversation_turn_alternation flat_oracle 10 10 [] [some "Power."]).2.2.1 0⟩

/-- A run over completed turns followed by an interrupted turn stops at
that turn: the trailing outcomes are never processed. -/
theorem main_run_interrupt_split (measure : List Char → Nat → Nat) (available_height : Int)
    (available_width : Nat) (css : List (List (Option String))) (c : List (Option String))
    (rest : List CompletionOutcome) :
    main_run measure available_height available_width
        (css.map mk_done ++ CompletionOutcome.streamed c TurnEnding.interrupted :: rest) =
      do_turn measure available_height available_width (1 + css.length)
        (main_run measure available_height available_width (css.map mk_done)).1
        (CompletionOutcome.streamed c TurnEnding.interrupted) := by
  simp only [main_run]
  rw [run_turns_append]
  rcases hpre : run_turns measure available_height available_width 1 (css.map mk_done) init_state
    with ⟨pre, epre⟩
  have hnone : epre = none := by
    have h := run_turns_done_noerr measure available_height available_width css 1 init_state
    rw [hpre] at h
    exact h
  subst hnone
  show run_turns measure available_height available_width (1 + (css.map mk_done).length)
    (CompletionOutcome.streamed c TurnEnding.interrupted :: rest) pre =
    do_turn measure available_height available_width (1 + css.length) pre
      (CompletionOutcome.streamed c TurnEnding.interrupted)
  rw [List.length_map]
  simp only [run_turns]
  rw [do_turn_interrupted]

/-- C9: when a user interrupt arrives while a turn's chunks are being
consumed, the loop stops there: the error is a recoverable interrupt
that `main` does not re-raise, the conversation log is unchanged from
before the interrupted turn (the partial in-flight response is not
flushed), and the interrupted speaker's history gains only the `user`
prompt entry — no `assistant` entry for that turn — while the other
history is untouched. -/
theorem interrupt_discards_partial_turn (measure : List Char → Nat → Nat)
    (available_height : Int) (available_width : Nat) (css : List (List (Option String)))
    (c : List (Option String)) (rest : List CompletionOutcome) :
    (main_run measure available_height available_width
        (css.map mk_done ++ CompletionOutcome.streamed c TurnEnding.interrupted :: rest)).2 =
      some .interrupt ∧
    raises_further (main_run measure available_height available_width
        (css.map mk_done ++ CompletionOutcome.streamed c TurnEnding.interrupted :: rest)).2 = false ∧
    (main_run measure available_height available_width
        (css.map mk_done ++ CompletionOutcome.streamed c TurnEnding.interrupted :: rest)).1.conversation_log =
      (main_run measure available_height available_width (css.map mk_done)).1.conversation_log ∧
    (if (css.length + 1) % 2 = 1 then
      (main_run measure available_height available_width
          (css.map mk_done ++ CompletionOutcome.streamed c TurnEnding.interrupted :: rest)).1.nietzsche_messages =
        (main_run measure available_height available_width (css.map mk_done)).1.nietzsche_messages ++
          [⟨"user", prompt_for (css.length + 1)
            (main_run measure available_height available_width (css.map mk_done)).1⟩] ∧
      (main_run measure available_height available_width
          (css.map mk_done ++ CompletionOutcome.streamed c TurnEnding.interrupted :: rest)).1.heidegger_messages =
        (main_run measure available_height available_width (css.map mk_done)).1.heidegger_messages
    else
      (main_run measure available_height available_width
          (css.map mk_done ++ CompletionOutcome.streamed c TurnEnding.interrupted :: rest)).1.heidegger_messages =
        (main_run measure available_height available_width (css.map mk_done)).1.heidegger_messages ++
          [⟨"user", prompt_for (css.length + 1)
            (main_run measure available_height available_width (css.map mk_done)).1⟩] ∧
      (main_run measure available_height available_width
          (css.map mk_done ++ CompletionOutcome.streamed c TurnEnding.interrupted :: rest)).1.nietzsche_messages =
        (main_run measure available_height available_width (css.map mk_done)).1.nietzsche_messages) := by
  rw [main_run_interrupt_split, do_turn_interrupted]
  have harith : 1 + css.length = css.length + 1 := by omega
  rw [harith]
  by_cases hodd : (css.length + 1) % 2 = 1
  · rw [if_pos hodd, if_pos hodd]
    exact ⟨rfl, rfl, rfl, rfl, rfl⟩
  · rw [if_neg hodd, if_neg hodd]
    exact ⟨rfl, rfl, rfl, rfl, rfl⟩

end SiliconSymposium
